import Mathlib

/-!
Verification of the resilient-delivery subsystem of `chatgpt-notion-sync`
(`scripts/poke_api_client.py` and `scripts/poke_integration.py`).

The Python source is shallowly embedded below: each class or function that a
claim depends on is translated into an executable Lean definition, with a
comment pointing at the source lines it embeds.  Wall-clock time is modelled
by explicit numeric parameters (`time.time()` values as integers for the
circuit breaker, `datetime.now()` values as rationals for the rate limiter);
`time.sleep(d)` is modelled as advancing the current time by exactly `d`.
Logging and metrics bookkeeping are elided: no claim observes them.
-/

namespace PokeSync

/-! ## Circuit breaker (poke_api_client.py, lines 58-148) -/

/-- `CircuitState` enum (lines 58-62). -/
inductive CircuitState where
  | closed
  | opened
  | halfOpen
deriving DecidableEq, Repr

/-- Mutable state of class `CircuitBreaker` (lines 90-107).  `timeout` and
timestamps are integers (seconds); `last_failure_time` starts out as
Python `None`. -/
structure CircuitBreaker where
  failure_threshold : Nat
  timeout : Int
  failure_count : Nat
  last_failure_time : Option Int
  state : CircuitState
deriving DecidableEq, Repr

/-- `CircuitBreaker.__init__` (lines 95-107). -/
def CircuitBreaker.mk0 (failure_threshold : Nat) (timeout : Int) : CircuitBreaker :=
  ⟨failure_threshold, timeout, 0, none, .closed⟩

/-- `CircuitBreaker._should_attempt_reset` (lines 128-131).  The Python guard
is `self.last_failure_time and time.time() - self.last_failure_time >=
self.timeout`: a `None` (or zero, by Python truthiness) timestamp short-circuits
to false. -/
def CircuitBreaker.shouldAttemptReset (cb : CircuitBreaker) (now : Int) : Bool :=
  match cb.last_failure_time with
  | none => false
  | some t => decide (t ≠ 0) && decide (cb.timeout ≤ now - t)

/-- `CircuitBreaker._on_success` (lines 133-138): leaving HALF_OPEN closes the
circuit; `failure_count` resets unconditionally. -/
def CircuitBreaker.onSuccess (cb : CircuitBreaker) : CircuitBreaker :=
  { cb with
    state := if cb.state = .halfOpen then .closed else cb.state
    failure_count := 0 }

/-- `CircuitBreaker._on_failure` (lines 140-148): increment `failure_count`,
stamp `last_failure_time`, and open the circuit once the count reaches the
threshold. -/
def CircuitBreaker.onFailure (cb : CircuitBreaker) (now : Int) : CircuitBreaker :=
  let fc := cb.failure_count + 1
  { cb with
    failure_count := fc
    last_failure_time := some now
    state := if cb.failure_threshold ≤ fc ∧ cb.state ≠ .opened then .opened else cb.state }

/-- Observable outcome of one `CircuitBreaker.call`: `rejected` models the
`CircuitBreakerOpenError` raise (lines 116-118), in which case the wrapped
function is never invoked; otherwise the wrapped function ran and either
returned (`success`) or raised (`failure`, re-raised after `_on_failure`). -/
inductive CallResult where
  | rejected
  | success
  | failure
deriving DecidableEq, Repr

/-- `CircuitBreaker.call` (lines 109-126).  `now` is the current
`time.time()`; `opSucceeds` tells whether the wrapped function returns
normally or raises. -/
def CircuitBreaker.call (cb : CircuitBreaker) (now : Int) (opSucceeds : Bool) :
    CallResult × CircuitBreaker :=
  let exec := fun (cb1 : CircuitBreaker) =>
    if opSucceeds then (CallResult.success, cb1.onSuccess)
    else (CallResult.failure, cb1.onFailure now)
  match cb.state with
  | .opened =>
      if cb.shouldAttemptReset now then exec { cb with state := .halfOpen }
      else (CallResult.rejected, cb)
  | .closed => exec cb
  | .halfOpen => exec cb

/-! Branch-by-branch computation lemmas for `CircuitBreaker.call`. -/

theorem CircuitBreaker.call_closed_success (cb : CircuitBreaker) (now : Int)
    (h : cb.state = .closed) :
    cb.call now true = (CallResult.success, { cb with state := .closed, failure_count := 0 }) := by
  unfold CircuitBreaker.call CircuitBreaker.onSuccess
  rw [h]
  simp [h]

theorem CircuitBreaker.call_closed_failure (cb : CircuitBreaker) (now : Int)
    (h : cb.state = .closed) :
    cb.call now false = (CallResult.failure,
      { cb with
          failure_count := cb.failure_count + 1
          last_failure_time := some now
          state := if cb.failure_threshold ≤ cb.failure_count + 1 then .opened else .closed }) := by
  unfold CircuitBreaker.call CircuitBreaker.onFailure
  rw [h]
  simp [h]

theorem CircuitBreaker.call_open_rejected (cb : CircuitBreaker) (now : Int) (b : Bool)
    (h : cb.state = .opened) (hr : cb.shouldAttemptReset now = false) :
    cb.call now b = (CallResult.rejected, cb) := by
  unfold CircuitBreaker.call
  rw [h, hr]
  simp

theorem CircuitBreaker.call_open_trial_success (cb : CircuitBreaker) (now : Int)
    (h : cb.state = .opened) (hr : cb.shouldAttemptReset now = true) :
    cb.call now true = (CallResult.success, { cb with state := .closed, failure_count := 0 }) := by
  unfold CircuitBreaker.call CircuitBreaker.onSuccess
  rw [h, hr]
  simp

theorem CircuitBreaker.call_open_trial_failure (cb : CircuitBreaker) (now : Int)
    (h : cb.state = .opened) (hr : cb.shouldAttemptReset now = true) :
    cb.call now false = (CallResult.failure,
      { cb with
          failure_count := cb.failure_count + 1
          last_failure_time := some now
          state := if cb.failure_threshold ≤ cb.failure_count + 1 then .opened else .halfOpen }) := by
  unfold CircuitBreaker.call CircuitBreaker.onFailure
  rw [h, hr]
  simp

theorem CircuitBreaker.call_failure_threshold (cb : CircuitBreaker) (now : Int) (b : Bool) :
    ((cb.call now b).2).failure_threshold = cb.failure_threshold := by
  cases hst : cb.state <;> cases b <;>
      simp only [CircuitBreaker.call, CircuitBreaker.onSuccess, CircuitBreaker.onFailure, hst] <;>
      first
      | rfl
      | (split <;> rfl)

/-- A sequence of guarded calls: each element supplies the call's `time.time()`
and whether the wrapped operation would succeed. -/
def runTrace (cb : CircuitBreaker) (tr : List (Int × Bool)) : CircuitBreaker :=
  tr.foldl (fun c p => (c.call p.1 p.2).2) cb

/-- States reachable by guarded calls with positive timestamps satisfy: an OPEN
breaker has `failure_count` at or above the threshold, the stored state is never
HALF_OPEN (it is only an intermediate value inside `call`), and any stored
failure timestamp is positive. -/
def BreakerInv (cb : CircuitBreaker) : Prop :=
  (cb.state = .opened → cb.failure_threshold ≤ cb.failure_count) ∧
  cb.state ≠ .halfOpen ∧
  (∀ t, cb.last_failure_time = some t → 0 < t)

theorem breakerInv_call (cb : CircuitBreaker) (now : Int) (b : Bool)
    (hinv : BreakerInv cb) (hnow : 0 < now) : BreakerInv ((cb.call now b).2) := by
  obtain ⟨hopen, hhalf, hpos⟩ := hinv
  cases hst : cb.state with
  | halfOpen => exact absurd hst hhalf
  | closed =>
    cases b with
    | true =>
      rw [cb.call_closed_success now hst]
      exact ⟨by simp, by simp, fun t ht => hpos t ht⟩
    | false =>
      rw [cb.call_closed_failure now hst]
      refine ⟨?_, ?_, ?_⟩
      · intro h
        simp only at h ⊢
        split at h
        · next hc => exact hc
        · exact absurd h (by simp)
      · simp only
        split <;> simp
      · intro t ht
        simp only at ht
        injection ht with ht
        omega
  | opened =>
    by_cases hr : cb.shouldAttemptReset now
    · cases b with
      | true =>
        rw [cb.call_open_trial_success now hst hr]
        exact ⟨by simp, by simp, fun t ht => hpos t ht⟩
      | false =>
        rw [cb.call_open_trial_failure now hst hr]
        have hth : cb.failure_threshold ≤ cb.failure_count + 1 :=
          Nat.le_succ_of_le (hopen hst)
        refine ⟨?_, ?_, ?_⟩
        · intro _
          simpa using hth
        · simp [hth]
        · intro t ht
          simp only at ht
          injection ht with ht
          omega
    · rw [cb.call_open_rejected now b hst (by simpa using hr)]
      exact ⟨fun _ => hopen hst, by simp [hst], hpos⟩

theorem breakerInv_runTrace (cb : CircuitBreaker) (tr : List (Int × Bool))
    (hinv : BreakerInv cb) (htr : ∀ p ∈ tr, 0 < p.1) : BreakerInv (runTrace cb tr) := by
  induction tr generalizing cb with
  | nil => exact hinv
  | cons p rest ih =>
    simp only [runTrace, List.foldl_cons]
    exact ih _ (breakerInv_call cb p.1 p.2 hinv (htr p (by simp)))
      (fun q hq => htr q (by simp [hq]))

theorem breakerInv_mk0 (th : Nat) (tmo : Int) : BreakerInv (CircuitBreaker.mk0 th tmo) := by
  refine ⟨?_, ?_, ?_⟩ <;> simp [CircuitBreaker.mk0]

theorem runTrace_failure_threshold (cb : CircuitBreaker) (tr : List (Int × Bool)) :
    (runTrace cb tr).failure_threshold = cb.failure_threshold := by
  induction tr generalizing cb with
  | nil => rfl
  | cons p rest ih =>
    simp only [runTrace, List.foldl_cons] at ih ⊢
    rw [ih ((cb.call p.1 p.2).2), cb.call_failure_threshold p.1 p.2]

/-- C3: a guarded call arriving while the breaker is OPEN and the timeout has
not yet elapsed since the recorded last failure is rejected (the
`CircuitBreakerOpenError` raise at lines 116-118): the wrapped operation is not
attempted — the outcome is `rejected` for either behaviour of the operation —
and the breaker state, including `failure_count` and `last_failure_time`, is
returned unchanged. -/
theorem circuitBreaker_open_rejects_without_counting
    (cb : CircuitBreaker) (now t : Int) (b : Bool)
    (hstate : cb.state = .opened)
    (hlast : cb.last_failure_time = some t)
    (hElapsed : now - t < cb.timeout) :
    cb.call now b = (CallResult.rejected, cb) := by
  have hreset : cb.shouldAttemptReset now = false := by
    unfold CircuitBreaker.shouldAttemptReset
    rw [hlast]
    simp only [Bool.and_eq_false_iff]
    right
    simpa using not_le.mpr hElapsed
  exact cb.call_open_rejected now b hstate hreset

theorem circuitBreaker_open_rejects_without_counting_witness :
    (⟨5, 60, 3, some 10, .opened⟩ : CircuitBreaker).call 20 true =
      (CallResult.rejected, ⟨5, 60, 3, some 10, .opened⟩) :=
  circuitBreaker_open_rejects_without_counting ⟨5, 60, 3, some 10, .opened⟩ 20 10 true
    rfl rfl (by norm_num)

/-- C4: starting from a fresh breaker, `n ≤ threshold` consecutive guarded-call
failures leave `failure_count = n`, keep the breaker CLOSED while
`n < threshold`, and the failure that brings the count to the threshold flips
the state to OPEN. -/
theorem circuitBreaker_opens_at_threshold (th : Nat) (tmo : Int) (n : Nat)
    (hth : 0 < th) (hn : n ≤ th) :
    (runTrace (CircuitBreaker.mk0 th tmo) (List.replicate n (1, false))).failure_count = n ∧
    (runTrace (CircuitBreaker.mk0 th tmo) (List.replicate n (1, false))).state =
      (if n < th then CircuitState.closed else CircuitState.opened) := by
  induction n with
  | zero =>
    simp [runTrace, CircuitBreaker.mk0, hth]
  | succ m ih =>
    have hm : m ≤ th := Nat.le_of_succ_le hn
    have hmlt : m < th := Nat.lt_of_succ_le hn
    obtain ⟨ihc, ihs⟩ := ih hm
    rw [if_pos hmlt] at ihs
    have hstep : runTrace (CircuitBreaker.mk0 th tmo) (List.replicate (m + 1) (1, false)) =
        ((runTrace (CircuitBreaker.mk0 th tmo) (List.replicate m (1, false))).call 1 false).2 := by
      rw [List.replicate_succ' m (1, false)]
      unfold runTrace
      rw [List.foldl_append]
      rfl
    rw [hstep]
    set cbm := runTrace (CircuitBreaker.mk0 th tmo) (List.replicate m (1, false)) with hcbm
    have hthr : cbm.failure_threshold = th := by
      rw [hcbm, runTrace_failure_threshold]
      rfl
    rw [cbm.call_closed_failure 1 ihs]
    refine ⟨by simpa using ihc, ?_⟩
    simp only [ihc, hthr]
    by_cases hlt : m + 1 < th
    · rw [if_neg (by omega), if_pos hlt]
    · rw [if_pos (by omega), if_neg hlt]

theorem circuitBreaker_opens_at_threshold_witness :
    (runTrace (CircuitBreaker.mk0 5 60) (List.replicate 5 (1, false))).failure_count = 5 ∧
    (runTrace (CircuitBreaker.mk0 5 60) (List.replicate 5 (1, false))).state =
      (if 5 < 5 then CircuitState.closed else CircuitState.opened) :=
  circuitBreaker_opens_at_threshold 5 60 5 (by norm_num) (by norm_num)

/-- C5: for any breaker state reached by guarded calls with positive
timestamps, if the breaker is OPEN and at least `timeout` seconds have elapsed
since `last_failure_time`, the next guarded call is permitted
(`_should_attempt_reset` fires, so the call runs in HALF_OPEN rather than
being rejected); a successful trial closes the circuit and zeroes
`failure_count`, while a failing trial re-opens it and refreshes
`last_failure_time` to the current time. -/
theorem circuitBreaker_half_open_trial (th : Nat) (tmo : Int) (tr : List (Int × Bool))
    (now t : Int)
    (htr : ∀ p ∈ tr, 0 < p.1)
    (hstate : (runTrace (CircuitBreaker.mk0 th tmo) tr).state = .opened)
    (hlast : (runTrace (CircuitBreaker.mk0 th tmo) tr).last_failure_time = some t)
    (hElapsed : (runTrace (CircuitBreaker.mk0 th tmo) tr).timeout ≤ now - t) :
    (runTrace (CircuitBreaker.mk0 th tmo) tr).shouldAttemptReset now = true ∧
    (runTrace (CircuitBreaker.mk0 th tmo) tr).call now true =
      (CallResult.success,
        { runTrace (CircuitBreaker.mk0 th tmo) tr with
            state := .closed, failure_count := 0 }) ∧
    (runTrace (CircuitBreaker.mk0 th tmo) tr).call now false =
      (CallResult.failure,
        { runTrace (CircuitBreaker.mk0 th tmo) tr with
            state := .opened,
            failure_count := (runTrace (CircuitBreaker.mk0 th tmo) tr).failure_count + 1,
            last_failure_time := some now }) := by
  have hinv := breakerInv_runTrace (CircuitBreaker.mk0 th tmo) tr (breakerInv_mk0 th tmo) htr
  obtain ⟨hopen, _, hpos⟩ := hinv
  set cb := runTrace (CircuitBreaker.mk0 th tmo) tr with hcb
  have htpos : 0 < t := hpos t hlast
  have hreset : cb.shouldAttemptReset now = true := by
    unfold CircuitBreaker.shouldAttemptReset
    rw [hlast]
    simp only [Bool.and_eq_true, decide_eq_true_eq]
    exact ⟨by omega, hElapsed⟩
  refine ⟨hreset, cb.call_open_trial_success now hstate hreset, ?_⟩
  rw [cb.call_open_trial_failure now hstate hreset]
  have hth : cb.failure_threshold ≤ cb.failure_count + 1 :=
    Nat.le_succ_of_le (hopen hstate)
  rw [if_pos hth]

theorem circuitBreaker_half_open_trial_witness :
    (runTrace (CircuitBreaker.mk0 1 1) [(5, false)]).shouldAttemptReset 6 = true ∧
    (runTrace (CircuitBreaker.mk0 1 1) [(5, false)]).call 6 true =
      (CallResult.success,
        { runTrace (CircuitBreaker.mk0 1 1) [(5, false)] with
            state := .closed, failure_count := 0 }) ∧
    (runTrace (CircuitBreaker.mk0 1 1) [(5, false)]).call 6 false =
      (CallResult.failure,
        { runTrace (CircuitBreaker.mk0 1 1) [(5, false)] with
            state := .opened,
            failure_count := (runTrace (CircuitBreaker.mk0 1 1) [(5, false)]).failure_count + 1,
            last_failure_time := some 6 }) :=
  circuitBreaker_half_open_trial 1 1 [(5, false)] 6 5
    (by intro p hp; simp at hp; simp [hp]) (by decide) (by decide) (by decide)

/-! ## Exponential backoff with jitter (poke_api_client.py, lines 286-306)

`_calculate_backoff_with_jitter(retry_count, base_delay)` computes
`exponential_delay = base_delay * (2 ** retry_count)` and adds
`jitter = random.uniform(0, exponential_delay * 0.3)`.  The random draw is
modelled by an explicit parameter `jitter` ranging over the interval
`[0, exponential_delay * 3/10]` that `random.uniform` draws from.  Note the
source applies no `max_backoff` cap of any kind. -/

/-- The deterministic part of `_calculate_backoff_with_jitter` (line 298):
`exponential_delay = base_delay * (2 ** retry_count)`. -/
def exponentialDelay (retryCount : Nat) (baseDelay : ℚ) : ℚ :=
  baseDelay * 2 ^ retryCount

/-- `_calculate_backoff_with_jitter` (lines 286-306) with the `random.uniform`
draw made explicit: `total_delay = exponential_delay + jitter`. -/
def backoffWithJitter (retryCount : Nat) (baseDelay jitter : ℚ) : ℚ :=
  exponentialDelay retryCount baseDelay + jitter

/-- Modelled from the spec words only (spec.md §4.2, claim C6), for comparison
with the source: "EXPONENTIAL: `min(initial * multiplier^attempt_index,
max_backoff)`" with initial=1, multiplier=2, max_backoff=60. -/
def specBackoffBase (attemptIndex : Nat) : ℚ :=
  min ((1 : ℚ) * 2 ^ attemptIndex) 60

/-- C6 counterexample: at attempt_index 6 (with base_delay 1, the value used
for the 5xx/timeout/connection retry paths) the code computes a base of 64
seconds, while the claimed formula `min(initial * multiplier^i, max_backoff)`
caps it at 60: the source has no cap. -/
theorem backoff_cap_counterexample :
    exponentialDelay 6 1 = 64 ∧ specBackoffBase 6 = 60 ∧
      exponentialDelay 6 1 ≠ specBackoffBase 6 := by
  refine ⟨by norm_num [exponentialDelay], by norm_num [specBackoffBase], ?_⟩
  norm_num [exponentialDelay, specBackoffBase]

/-- C6 (amended): with initial = 1 and multiplier = 2 the backoff base is
`2 ^ attempt_index` with no cap (32 s at index 5, 64 s at index 6), and for
any jitter draw in the interval `[0, base * 3/10]` that `random.uniform`
ranges over, the returned delay is at least the base and at most
`base * (1 + 3/10)` (attainable, since `random.uniform(a, b)` may return `b`). -/
theorem backoff_bounds (retryCount : Nat) (jitter : ℚ)
    (hj0 : 0 ≤ jitter) (hj1 : jitter ≤ exponentialDelay retryCount 1 * (3 / 10)) :
    exponentialDelay retryCount 1 ≤ backoffWithJitter retryCount 1 jitter ∧
    backoffWithJitter retryCount 1 jitter ≤ exponentialDelay retryCount 1 * (13 / 10) ∧
    exponentialDelay 5 1 = 32 ∧ exponentialDelay 6 1 = 64 := by
  refine ⟨?_, ?_, by norm_num [exponentialDelay], by norm_num [exponentialDelay]⟩
  · unfold backoffWithJitter
    linarith
  · unfold backoffWithJitter
    linarith

theorem backoff_bounds_witness :
    exponentialDelay 5 1 ≤ backoffWithJitter 5 1 0 ∧
    backoffWithJitter 5 1 0 ≤ exponentialDelay 5 1 * (13 / 10) ∧
    exponentialDelay 5 1 = 32 ∧ exponentialDelay 6 1 = 64 :=
  backoff_bounds 5 0 (by norm_num) (by norm_num [exponentialDelay])

/-! ## Sliding-window rate limiter (poke_api_client.py, lines 251-284)

`_check_rate_limit` prunes `_request_times` down to the trailing 60-second
window, and if the pruned window is at capacity computes
`wait_time = 60 - (now - min(_request_times))`, sleeps `wait_time + 0.1`,
re-prunes, and finally appends the admission timestamp.  `datetime.now()`
values are rationals (seconds); `time.sleep(d)` advances the clock by exactly
`d`.  Callers are sequential, so each call's arrival time is the previous
admission time plus a non-negative gap. -/

/-- The pruning comprehension (lines 261-264 and 278-281): keep timestamps
`t` with `now - t < timedelta(minutes=1)`. -/
def pruneWindow (ts : List ℚ) (now : ℚ) : List ℚ :=
  ts.filter (fun t => decide (now - t < 60))

/-- Python `min([])` raises `ValueError: min() arg is an empty sequence`. -/
inductive RateLimitFault where
  | valueError
deriving DecidableEq, Repr

/-- Python `min` over a list. -/
def listMin : List ℚ → Option ℚ
  | [] => none
  | x :: xs => some (xs.foldl min x)

/-- Result of one `_check_rate_limit` call: the new `_request_times` list and
the admission timestamp it recorded (which is also the time at which the call
returns, after any sleep). -/
structure Admission where
  times : List ℚ
  admittedAt : ℚ
deriving DecidableEq, Repr

/-- `_check_rate_limit` (lines 251-284).  The branch structure mirrors the
source: prune; if at capacity take `oldest = min(_request_times)` (a
`ValueError` on an empty window, reachable only with `rate_limit = 0`); if
`wait_time > 0` sleep `wait_time + 0.1`, re-prune at the new clock value and
append it, else append the original `now`. -/
def checkRateLimit (rateLimit : Nat) (ts : List ℚ) (now : ℚ) :
    Except RateLimitFault Admission :=
  if rateLimit ≤ (pruneWindow ts now).length then
    match listMin (pruneWindow ts now) with
    | none => .error .valueError
    | some oldest =>
      if 0 < 60 - (now - oldest) then
        .ok ⟨pruneWindow (pruneWindow ts now) (now + ((60 - (now - oldest)) + 1 / 10)) ++
              [now + ((60 - (now - oldest)) + 1 / 10)],
            now + ((60 - (now - oldest)) + 1 / 10)⟩
      else .ok ⟨pruneWindow ts now ++ [now], now⟩
  else .ok ⟨pruneWindow ts now ++ [now], now⟩

/-- A sequence of sequential admissions: `gaps` lists, for each call, the
delay between the previous call's return and this call's arrival.  Returns
the final `_request_times` and the list of admission timestamps. -/
def runRateLimiter (rateLimit : Nat) :
    List ℚ → List ℚ → ℚ → Except RateLimitFault (List ℚ × List ℚ)
  | [], ts, _ => .ok (ts, [])
  | g :: gs, ts, tcur =>
    match checkRateLimit rateLimit ts (tcur + g) with
    | .error e => .error e
    | .ok adm =>
      match runRateLimiter rateLimit gs adm.times adm.admittedAt with
      | .error e => .error e
      | .ok (tsf, bs) => .ok (tsf, adm.admittedAt :: bs)

/-- Membership test for a trailing 60-second window `(w, w + 60]`. -/
def inWindow (w : ℚ) (b : ℚ) : Bool :=
  decide (w < b) && decide (b ≤ w + 60)

/-! List helper lemmas for the rate-limiter invariant. -/

theorem length_filter_mono {l : List ℚ} {p q : ℚ → Bool}
    (h : ∀ a ∈ l, p a = true → q a = true) :
    (l.filter p).length ≤ (l.filter q).length := by
  induction l with
  | nil => simp
  | cons x xs ih =>
    have ih' := ih (fun a ha hpa => h a (List.mem_cons_of_mem x ha) hpa)
    by_cases hp : p x = true
    · have hq := h x (List.mem_cons_self x xs) hp
      simp only [List.filter_cons, hp, hq, if_true, List.length_cons]
      exact Nat.succ_le_succ ih'
    · have hp' : p x = false := by simpa using hp
      by_cases hq : q x = true
      · simp only [List.filter_cons, hp', hq, if_true, Bool.false_eq_true, if_false,
          List.length_cons]
        exact Nat.le_succ_of_le ih'
      · have hq' : q x = false := by simpa using hq
        simp only [List.filter_cons, hp', hq', Bool.false_eq_true, if_false]
        exact ih'

theorem length_filter_lt {l : List ℚ} {p : ℚ → Bool} {a : ℚ}
    (ha : a ∈ l) (hpa : p a = false) : (l.filter p).length < l.length := by
  induction l with
  | nil => cases ha
  | cons x xs ih =>
    rcases List.mem_cons.mp ha with rfl | hmem
    · simp only [List.filter_cons, hpa, Bool.false_eq_true, if_false, List.length_cons]
      exact Nat.lt_succ_of_le (List.length_filter_le p xs)
    · by_cases hp : p x = true
      · simp only [List.filter_cons, hp, if_true, List.length_cons]
        exact Nat.succ_lt_succ (ih hmem)
      · have hp' : p x = false := by simpa using hp
        simp only [List.filter_cons, hp', Bool.false_eq_true, if_false, List.length_cons]
        exact Nat.lt_succ_of_lt (ih hmem)

theorem foldl_min_mem (xs : List ℚ) (x : ℚ) : xs.foldl min x ∈ x :: xs := by
  induction xs generalizing x with
  | nil => simp
  | cons y ys ih =>
    simp only [List.foldl_cons]
    rcases List.mem_cons.mp (ih (min x y)) with hh | hh
    · rw [hh]
      rcases min_choice x y with hc | hc <;> rw [hc] <;> simp
    · exact List.mem_cons_of_mem x (List.mem_cons_of_mem y hh)

theorem listMin_mem {l : List ℚ} {m : ℚ} (h : listMin l = some m) : m ∈ l := by
  cases l with
  | nil => cases h
  | cons x xs =>
    have hm : xs.foldl min x = m := by
      simpa [listMin] using h
    exact hm ▸ foldl_min_mem xs x

theorem pruneWindow_pruneWindow (hist : List ℚ) (t1 t2 : ℚ) (h : t1 ≤ t2) :
    pruneWindow (pruneWindow hist t1) t2 = pruneWindow hist t2 := by
  unfold pruneWindow
  rw [List.filter_filter]
  apply List.filter_congr
  intro a _
  by_cases h2 : t2 - a < 60
  · have h1 : t1 - a < 60 := by linarith
    simp [h1, h2]
  · simp [h2]

theorem pruneWindow_append_self (hist : List ℚ) (b : ℚ) :
    pruneWindow (hist ++ [b]) b = pruneWindow hist b ++ [b] := by
  unfold pruneWindow
  rw [List.filter_append]
  congr 1
  simp

/-- One `_check_rate_limit` call, taken from a state that is the pruned view of
the admission history `hist` at the previous return time `tcur`, succeeds and
admits at some time `b ≥ now`, leaving strictly fewer than `rate_limit`
earlier admissions inside the window ending at `b`. -/
theorem checkRateLimit_step (rateLimit : Nat) (hist ts : List ℚ) (tcur now : ℚ)
    (hrl : 1 ≤ rateLimit)
    (hts : ts = pruneWindow hist tcur)
    (hlen : ts.length ≤ rateLimit)
    (hnow : tcur ≤ now) :
    ∃ b, checkRateLimit rateLimit ts now = .ok ⟨pruneWindow hist b ++ [b], b⟩ ∧
      now ≤ b ∧ (pruneWindow hist b).length < rateLimit := by
  have hts1 : pruneWindow ts now = pruneWindow hist now := by
    rw [hts]
    exact pruneWindow_pruneWindow hist tcur now hnow
  by_cases hc : rateLimit ≤ (pruneWindow ts now).length
  · -- window at capacity: the waiting branch runs
    have hlen1 : (pruneWindow ts now).length ≤ ts.length := List.length_filter_le _ ts
    obtain ⟨y, ys, hshape⟩ : ∃ y ys, pruneWindow ts now = y :: ys := by
      cases hys : pruneWindow ts now with
      | nil =>
        rw [hys] at hc
        simp at hc
        omega
      | cons y ys => exact ⟨y, ys, rfl⟩
    have hmin : listMin (pruneWindow ts now) = some (ys.foldl min y) := by
      rw [hshape]
      rfl
    set oldest := ys.foldl min y with holdest
    have hmem : oldest ∈ pruneWindow ts now := listMin_mem hmin
    have holdlt : now - oldest < 60 := by
      have := List.of_mem_filter hmem
      simpa using this
    have hwait : 0 < 60 - (now - oldest) := by linarith
    set b := now + ((60 - (now - oldest)) + 1 / 10) with hb
    have hnb : now ≤ b := by
      rw [hb]
      linarith
    have hbval : b = oldest + 60 + 1 / 10 := by
      rw [hb]
      ring
    have hts2 : pruneWindow (pruneWindow ts now) b = pruneWindow hist b := by
      rw [hts1]
      exact pruneWindow_pruneWindow hist now b hnb
    refine ⟨b, ?_, hnb, ?_⟩
    · unfold checkRateLimit
      rw [if_pos hc, hmin]
      dsimp only
      rw [if_pos hwait, ← hb, hts2]
    · have hdrop : (pruneWindow (pruneWindow ts now) b).length <
          (pruneWindow ts now).length := by
        apply length_filter_lt hmem
        have : ¬ (b - oldest < 60) := by
          rw [hbval]
          intro hcon
          linarith
        simpa using this
      rw [← hts2]
      calc (pruneWindow (pruneWindow ts now) b).length
          < (pruneWindow ts now).length := hdrop
        _ ≤ ts.length := hlen1
        _ ≤ rateLimit := hlen
  · -- window below capacity: append immediately
    refine ⟨now, ?_, le_refl now, ?_⟩
    · unfold checkRateLimit
      rw [if_neg hc, hts1]
    · rw [← hts1]
      omega

/-- Main rate-limiter invariant, by induction over the sequence of calls:
starting from a state that is the pruned view of the admission history so
far, every call eventually admits (no fault is raised), and every trailing
60-second window contains at most `rate_limit` admissions. -/
theorem runRateLimiter_spec (rateLimit : Nat) (hrl : 1 ≤ rateLimit)
    (gaps : List ℚ) :
    ∀ (hist ts : List ℚ) (tcur : ℚ),
      (∀ g ∈ gaps, 0 ≤ g) →
      ts = pruneWindow hist tcur →
      (∀ t ∈ hist, t ≤ tcur) →
      ts.length ≤ rateLimit →
      (∀ w, (hist.filter (inWindow w)).length ≤ rateLimit) →
      ∃ tsf bs, runRateLimiter rateLimit gaps ts tcur = .ok (tsf, bs) ∧
        bs.length = gaps.length ∧
        (∀ w, ((hist ++ bs).filter (inWindow w)).length ≤ rateLimit) := by
  induction gaps with
  | nil =>
    intro hist ts tcur _ _ _ _ hI4
    exact ⟨ts, [], rfl, rfl, by simpa using hI4⟩
  | cons g gs ih =>
    intro hist ts tcur hg hts hmem hlen hI4
    have hgnn : (0 : ℚ) ≤ g := hg g (by simp)
    have hnow : tcur ≤ tcur + g := by linarith
    obtain ⟨b, heq, hnb, hbound⟩ :=
      checkRateLimit_step rateLimit hist ts tcur (tcur + g) hrl hts hlen hnow
    have hmem' : ∀ t ∈ hist ++ [b], t ≤ b := by
      intro t ht
      rcases List.mem_append.mp ht with h1 | h1
      · exact le_trans (hmem t h1) (le_trans hnow hnb)
      · simp at h1
        rw [h1]
    have hts' : pruneWindow hist b ++ [b] = pruneWindow (hist ++ [b]) b :=
      (pruneWindow_append_self hist b).symm
    have hlen' : (pruneWindow hist b ++ [b]).length ≤ rateLimit := by
      rw [List.length_append]
      simp only [List.length_cons, List.length_nil]
      omega
    have hI4' : ∀ w, ((hist ++ [b]).filter (inWindow w)).length ≤ rateLimit := by
      intro w
      rw [List.filter_append]
      by_cases hbw : inWindow w b = true
      · have hsub : ∀ t ∈ hist, inWindow w t = true → decide (b - t < 60) = true := by
          intro t _ hin
          have h1 : w < t ∧ t ≤ w + 60 := by
            simpa [inWindow] using hin
          have h2 : w < b ∧ b ≤ w + 60 := by
            simpa [inWindow] using hbw
          simp only [decide_eq_true_eq]
          linarith [h1.1, h2.2]
        have hm := length_filter_mono hsub
        have : (hist.filter (inWindow w)).length < rateLimit :=
          lt_of_le_of_lt hm hbound
        rw [List.length_append]
        simp only [List.filter_cons, hbw, if_true, List.filter_nil, List.length_cons,
          List.length_nil]
        omega
      · have hbw' : inWindow w b = false := by simpa using hbw
        rw [List.length_append]
        simp only [List.filter_cons, hbw', Bool.false_eq_true, if_false, List.filter_nil,
          List.length_nil]
        have := hI4 w
        omega
    obtain ⟨tsf, bs, hrun, hbslen, hfin⟩ :=
      ih (hist ++ [b]) (pruneWindow hist b ++ [b]) b
        (fun q hq => hg q (List.mem_cons_of_mem g hq)) hts' hmem' hlen' hI4'
    refine ⟨tsf, b :: bs, ?_, by simp [hbslen], ?_⟩
    · unfold runRateLimiter
      rw [heq]
      simp only []
      rw [hrun]
    · intro w
      have := hfin w
      simpa [List.append_assoc] using this

/-- C7 counterexample: with `rate_limit = 0` (reachable by setting the
environment variable `POKE_API_RATE_LIMIT=0`), the very first admission finds
the empty window already "at capacity" (`0 <= 0`) and evaluates
`min(self._request_times)` on an empty list, which raises `ValueError`: the
claim that admission never raises and always eventually admits fails. -/
theorem rateLimiter_zero_limit_raises :
    runRateLimiter 0 [0] [] 0 = .error .valueError := by
  rfl

/-- C7 (amended): for every configured `rate_limit ≥ 1` and every sequential
arrival pattern (arbitrary non-negative gaps between calls, bursts included),
every admission eventually succeeds without raising — waiting, when the pruned
window is at capacity, until `60 - (now - oldest)` seconds plus the 0.1 s
buffer have passed and re-pruning before recording, as `checkRateLimit`
does — and every trailing 60-second window `(w, w + 60]` contains at most
`rate_limit` admission timestamps.  (With `rate_limit = 0` the first admission
raises `ValueError` instead.) -/
theorem rateLimiter_window_bound (rateLimit : Nat) (gaps : List ℚ) (t0 : ℚ)
    (hrl : 1 ≤ rateLimit) (hg : ∀ g ∈ gaps, 0 ≤ g) :
    ∃ tsf bs, runRateLimiter rateLimit gaps [] t0 = .ok (tsf, bs) ∧
      bs.length = gaps.length ∧
      (∀ w, (bs.filter (inWindow w)).length ≤ rateLimit) := by
  obtain ⟨tsf, bs, hrun, hlen, hwin⟩ :=
    runRateLimiter_spec rateLimit hrl gaps [] [] t0 hg (by simp [pruneWindow])
      (by simp) (by simp) (by simp)
  exact ⟨tsf, bs, hrun, hlen, fun w => by simpa using hwin w⟩

theorem rateLimiter_window_bound_witness :
    ∃ tsf bs, runRateLimiter 1 [0, 0] [] 0 = .ok (tsf, bs) ∧
      bs.length = [0, 0].length ∧
      (∀ w, (bs.filter (inWindow w)).length ≤ 1) :=
  rateLimiter_window_bound 1 [0, 0] 0 (le_refl 1)
    (by intro g hg; simp at hg; simp [hg])

/-! ## Ledger filtering (poke_integration.py, lines 194-229)

A loaded data object is modelled by the two fields the filtering and sync code
reads: `data.get('conversation_id')` and `data.get('_source_file')`.  A ledger
entry under `processed_conversations` is modelled by its `status` field, the
only field `filter_new_conversations` reads. -/

structure LedgerEntry where
  status : String
deriving DecidableEq, Repr

structure Record where
  conversation_id : Option String
  source_file : Option String
deriving DecidableEq, Repr

/-- The keep-condition at line 223: `conv_id not in processed or
processed[conv_id].get('status') != 'success'`. -/
def entryNotSuccess (processed : List (String × LedgerEntry)) (k : String) : Bool :=
  match processed.lookup k with
  | none => true
  | some e => decide (e.status ≠ "success")

/-- `filter_new_conversations` (lines 194-229): with `force` set, return all
records unchanged (lines 210-212); otherwise skip records whose
`conversation_id` is missing or falsy (the `if not conv_id` guard at lines
218-221, with a warning log), and keep exactly those not yet recorded as
success (line 223). -/
def filterNewConversations (records : List Record)
    (processed : List (String × LedgerEntry)) (force : Bool) : List Record :=
  if force then records
  else records.filter (fun r =>
    match r.conversation_id with
    | none => false
    | some cid => if cid = "" then false else entryNotSuccess processed cid)

/-- Modelled from the spec words (spec.md §4.4), for comparison with the
source: key `k` "is already marked success" in the ledger. -/
def markedSuccess (processed : List (String × LedgerEntry)) (k : String) : Bool :=
  match processed.lookup k with
  | none => false
  | some e => decide (e.status = "success")

theorem entryNotSuccess_eq_not_markedSuccess (processed : List (String × LedgerEntry))
    (k : String) : entryNotSuccess processed k = !(markedSuccess processed k) := by
  unfold entryNotSuccess markedSuccess
  cases processed.lookup k <;> simp

/-- C8 counterexample: with `force=true` the function returns every input
record unchanged — including a record that lacks a `conversation_id` — so
a keyless record is NOT excluded from the result in every case; it flows on
to delivery (where `sync_to_poke` would address it under the key
`"unknown"`). -/
theorem filter_force_keeps_keyless :
    filterNewConversations [⟨none, none⟩] [] true = [⟨none, none⟩] ∧
    (⟨none, none⟩ : Record).conversation_id = none :=
  ⟨rfl, rfl⟩

/-- C8 (amended): with `force=false`, `filter_new_conversations` returns
exactly the input records (in order) that carry a non-empty key which is not
already recorded with status success, and keyless records are excluded (with
a skip diagnostic) on that path; with `force=true` it returns all input
records unchanged, keyless records included. -/
theorem filter_pending_characterization (records : List Record)
    (processed : List (String × LedgerEntry)) :
    filterNewConversations records processed true = records ∧
    filterNewConversations records processed false =
      records.filter (fun r =>
        match r.conversation_id with
        | none => false
        | some cid => decide (cid ≠ "") && !(markedSuccess processed cid)) ∧
    (∀ r ∈ filterNewConversations records processed false,
      ∃ cid, r.conversation_id = some cid ∧ cid ≠ "" ∧
        markedSuccess processed cid = false) := by
  have hpt : ∀ r : Record,
      (match r.conversation_id with
        | none => false
        | some cid => if cid = "" then false else entryNotSuccess processed cid) =
      (match r.conversation_id with
        | none => false
        | some cid => decide (cid ≠ "") && !(markedSuccess processed cid)) := by
    intro r
    cases hcid : r.conversation_id with
    | none => rfl
    | some cid =>
      by_cases hc : cid = ""
      · simp [hc]
      · simp [hc, entryNotSuccess_eq_not_markedSuccess]
  refine ⟨rfl, ?_, ?_⟩
  · unfold filterNewConversations
    rw [if_neg (by simp)]
    exact List.filter_congr (fun r _ => hpt r)
  · intro r hr
    unfold filterNewConversations at hr
    rw [if_neg (by simp)] at hr
    have hp := List.of_mem_filter hr
    cases hcid : r.conversation_id with
    | none => rw [hcid] at hp; exact absurd hp (by simp)
    | some cid =>
      rw [hcid] at hp
      dsimp only at hp
      by_cases hc : cid = ""
      · rw [if_pos hc] at hp; cases hp
      · rw [if_neg hc, entryNotSuccess_eq_not_markedSuccess] at hp
        exact ⟨cid, rfl, hc, by simpa using hp⟩

/-! ## Sync history (poke_integration.py, lines 347-358) -/

/-- One entry of `sync_status['sync_history']` (lines 348-354). -/
structure SyncSummary where
  timestamp : Nat
  total : Nat
  successful : Nat
  failed : Nat
  dry_run : Bool
deriving DecidableEq, Repr

/-- Python `lst[-n:]`: the `n` most recent entries, in order. -/
def lastN (n : Nat) (l : List SyncSummary) : List SyncSummary :=
  l.drop (l.length - n)

/-- The history update in `sync_to_poke` (lines 347-358): append the run
summary; then, if the history now exceeds 50 entries, keep only
`sync_history[-50:]`. -/
def appendHistory (hist : List SyncSummary) (s : SyncSummary) : List SyncSummary :=
  if 50 < (hist ++ [s]).length then lastN 50 (hist ++ [s]) else hist ++ [s]

/-- A sequence of runs, each appending its summary. -/
def appendRuns (hist : List SyncSummary) (ss : List SyncSummary) : List SyncSummary :=
  ss.foldl appendHistory hist

theorem appendHistory_eq_lastN (hist : List SyncSummary) (s : SyncSummary) :
    appendHistory hist s = lastN 50 (hist ++ [s]) := by
  unfold appendHistory lastN
  by_cases h : 50 < (hist ++ [s]).length
  · rw [if_pos h]
  · rw [if_neg h]
    have h0 : (hist ++ [s]).length - 50 = 0 := by omega
    rw [h0, List.drop_zero]

theorem lastN_append (n : Nat) (l m : List SyncSummary) :
    lastN n (lastN n l ++ m) = lastN n (l ++ m) := by
  unfold lastN
  rw [List.drop_append_eq_append_drop, List.drop_append_eq_append_drop, List.drop_drop]
  congr 1
  · congr 1
    simp only [List.length_append, List.length_drop]
    omega
  · congr 1
    simp only [List.length_append, List.length_drop]
    omega

/-- C10: after at least one append (from any starting history, bounded or
not), the sync history equals the 50 most recent entries of the concatenated
run sequence, in order — eviction is oldest-first — and its length never
exceeds 50. -/
theorem sync_history_bounded (hist ss : List SyncSummary) (hne : ss ≠ []) :
    appendRuns hist ss = lastN 50 (hist ++ ss) ∧ (appendRuns hist ss).length ≤ 50 := by
  have key : ∀ (l : List SyncSummary) (h : List SyncSummary), l ≠ [] →
      appendRuns h l = lastN 50 (h ++ l) := by
    intro l
    induction l with
    | nil => intro h hc; cases hc rfl
    | cons s rest ih =>
      intro h _
      cases hrest : rest with
      | nil =>
        simp only [appendRuns, List.foldl_cons, List.foldl_nil]
        rw [appendHistory_eq_lastN]
      | cons r rs =>
        subst hrest
        have hne' : r :: rs ≠ [] := by simp
        have hstep : appendRuns h (s :: r :: rs) = appendRuns (appendHistory h s) (r :: rs) :=
          rfl
        rw [hstep, ih (appendHistory h s) hne', appendHistory_eq_lastN, lastN_append]
        congr 1
        simp
  refine ⟨key ss hist hne, ?_⟩
  rw [key ss hist hne]
  unfold lastN
  rw [List.length_drop]
  omega

theorem sync_history_bounded_witness :
    appendRuns [] [⟨0, 0, 0, 0, false⟩] = lastN 50 ([] ++ [⟨0, 0, 0, 0, false⟩]) ∧
    (appendRuns [] [⟨0, 0, 0, 0, false⟩]).length ≤ 50 :=
  sync_history_bounded [] [⟨0, 0, 0, 0, false⟩] (by simp)

/-! ## HTTP retry logic and the delivery path
(poke_api_client.py lines 308-498, poke_integration.py lines 260-360)

The remote server is modelled by two functions of the attempt index: the HTTP
status code it answers and the parsed JSON body (a Python dict, opaque to the
claims).  Backoff sleeps, logging, metrics, and the rate-limiter/circuit-
breaker bookkeeping inside `_make_request` are not observable by claims C1
and C9 (a fresh client's breaker is CLOSED with threshold 5 and permits every
call in these scenarios), so they are elided here; the status-code dispatch
and the bounded recursive retry (lines 361-412) are modelled exactly.
Transport faults (timeout / connection error, lines 414-442) follow the same
retry shape as HTTP 5xx and are not distinguished by any claim. -/

/-- A parsed JSON object (`response.json()`), opaque to the claims. -/
abbrev PyDict := List (String × String)

/-- The exception classes `_make_request` can raise (lines 65-87, 367-412),
with the payload a claim observes. -/
inductive PokeErr where
  | authFailure
  | validationFailure
  | rateLimitExhausted (maxRetries : Nat)
  | serverExhausted (status : Nat) (maxRetries : Nat)
  | unexpectedStatus (status : Nat)
deriving DecidableEq, Repr

/-- `_make_request` (lines 308-455): dispatch on the response status of the
current attempt; on 429 or a status ≥ 500, if `retry_count < max_retries`
sleep a backoff delay and recurse with `retry_count + 1`, else raise.  The
second component counts the network requests performed (one per invocation):
the source issues exactly one `session.request` before deciding. -/
def makeRequest (body : Nat → PyDict) (status : Nat → Nat)
    (maxRetries retryCount : Nat) : Except PokeErr PyDict × Nat :=
  let s := status retryCount
  if s = 200 ∨ s = 201 then (.ok (body retryCount), 1)
  else if s = 401 then (.error .authFailure, 1)
  else if s = 400 then (.error .validationFailure, 1)
  else if s = 429 then
    if h : retryCount < maxRetries then
      let r := makeRequest body status maxRetries (retryCount + 1)
      (r.1, r.2 + 1)
    else (.error (.rateLimitExhausted maxRetries), 1)
  else if 500 ≤ s then
    if h : retryCount < maxRetries then
      let r := makeRequest body status maxRetries (retryCount + 1)
      (r.1, r.2 + 1)
    else (.error (.serverExhausted s maxRetries), 1)
  else (.error (.unexpectedStatus s), 1)
termination_by maxRetries - retryCount
decreasing_by all_goals omega

/-- `send_insights` (lines 457-498): wrap the insights in a payload and POST
it via `_make_request('POST', '/insights', ...)`, starting at retry 0. -/
def sendInsights (body : Nat → PyDict) (status : Nat → Nat) (maxRetries : Nat) :
    Except PokeErr PyDict × Nat :=
  makeRequest body status maxRetries 0

/-- Exceptions observable inside `sync_to_poke`'s per-record `try` block. -/
inductive PyExn where
  | attributeError (attr : String)
  | pokeError (e : PokeErr)
deriving DecidableEq, Repr

/-- CPython attribute lookup on a builtin `dict` instance: a dict's entries
are reachable only by subscripting — attribute access such as
`response.success` raises `AttributeError` regardless of the dict's keys.
`sync_to_poke` accesses `response.success` (line 307), `response.attempts`
(lines 309, 315, 325, 333) and `response.error` (lines 320, 324, 332) on the
parsed-JSON dict that `send_insights` returns. -/
def dictGetattr (_d : PyDict) (attr : String) : Except PyExn String :=
  .error (.attributeError attr)

/-- Python truthiness of the (never materialised) attribute value. -/
def pyTruthy (v : String) : Bool := v ≠ ""

/-- Observable outcome of one iteration of `sync_to_poke`'s record loop:
whether the record was counted successful, the ledger upsert into
`sync_status['processed_conversations']` (if any), and the error appended to
`results['errors']` (if any). -/
structure RecordOutcome where
  countedSuccess : Bool
  ledgerWrite : Option (String × LedgerEntry)
  errorLogged : Option PyExn
deriving DecidableEq, Repr

/-- One iteration of the loop in `sync_to_poke` (lines 291-344), with
`dry_run = False`: read the key (`data.get('conversation_id', 'unknown')`),
call `send_insights`, then branch on `response.success`; any exception in the
`try` block — a `PokeAPIError` escaping `send_insights`, or the
`AttributeError` raised by `response.success` on a dict — lands in the
`except` handler (lines 337-344), which counts the record failed, appends the
error, and writes NO ledger entry. -/
def processRecord (body : Nat → PyDict) (status : Nat → Nat) (maxRetries : Nat)
    (r : Record) : RecordOutcome :=
  let conv_id := r.conversation_id.getD "unknown"
  let tryBlock : Except PyExn RecordOutcome := do
    let resp ← (sendInsights body status maxRetries).1.mapError PyExn.pokeError
    let s ← dictGetattr resp "success"
    if pyTruthy s then do
      let _a ← dictGetattr resp "attempts"
      pure ⟨true, some (conv_id, ⟨"success"⟩), none⟩
    else do
      let _er ← dictGetattr resp "error"
      let _a ← dictGetattr resp "attempts"
      pure ⟨false, some (conv_id, ⟨"failed"⟩), none⟩
  match tryBlock with
  | .ok o => o
  | .error e => ⟨false, none, some e⟩

/-- Aggregate view of `results` and the ledger writes of one `sync_to_poke`
run (lines 278-344). -/
structure SyncResults where
  total : Nat
  successful : Nat
  failed : Nat
  ledgerWrites : List (String × LedgerEntry)
  errors : List PyExn
deriving DecidableEq, Repr

/-- The record loop of `sync_to_poke` (lines 291-344), applied to each record
in input order. -/
def syncToPoke (body : Nat → PyDict) (status : Nat → Nat) (maxRetries : Nat)
    (records : List Record) : SyncResults :=
  records.foldl
    (fun acc r =>
      let o := processRecord body status maxRetries r
      ⟨acc.total,
       acc.successful + (if o.countedSuccess then 1 else 0),
       acc.failed + (if o.countedSuccess then 0 else 1),
       acc.ledgerWrites ++ o.ledgerWrite.toList,
       acc.errors ++ o.errorLogged.toList⟩)
    ⟨records.length, 0, 0, [], []⟩

/-- C1: evaluating the batch delivery path on a record with key `"c1"`
against a server that answers 200 on the first attempt.  `send_insights`
succeeds after exactly one network attempt and returns the parsed-JSON dict,
but `sync_to_poke` then evaluates `response.success` — an attribute access on
a dict — so the record is counted FAILED with an `AttributeError`, and no
ledger entry (in particular no `'success'` entry for `"c1"`) is written:
the claimed successful result and success ledger mark never happen. -/
theorem scenario1_success_response_counted_failed (body : Nat → PyDict) :
    syncToPoke body (fun _ => 200) 3 [⟨some "c1", none⟩] =
      ⟨1, 0, 1, [], [.attributeError "success"]⟩ ∧
    (sendInsights body (fun _ => 200) 3).1 = .ok (body 0) ∧
    (sendInsights body (fun _ => 200) 3).2 = 1 := by
  have hmr : makeRequest body (fun _ => 200) 3 0 = (.ok (body 0), 1) := by
    unfold makeRequest
    norm_num
  refine ⟨?_, ?_, ?_⟩
  · unfold syncToPoke
    simp only [List.foldl_cons, List.foldl_nil]
    unfold processRecord sendInsights
    rw [hmr]
    rfl
  · unfold sendInsights
    rw [hmr]
  · unfold sendInsights
    rw [hmr]

/-- All-5xx server: the retry recursion performs exactly
`max_retries - retry_count + 1` network attempts from `retry_count` and then
raises `PokeAPIError` carrying the last status. -/
theorem makeRequest_all500 (body : Nat → PyDict) (maxRetries : Nat) :
    ∀ d retryCount, maxRetries = retryCount + d →
      makeRequest body (fun _ => 500) maxRetries retryCount =
        (.error (.serverExhausted 500 maxRetries), d + 1) := by
  intro d
  induction d with
  | zero =>
    intro rc h
    unfold makeRequest
    norm_num
    intro hlt
    exact absurd hlt (by omega)
  | succ m ih =>
    intro rc h
    unfold makeRequest
    norm_num
    rw [if_pos (show rc < maxRetries by omega), ih (rc + 1) (by omega)]

/-- C9: evaluating the delivery path on a server that answers 500 on every
attempt, with `max_retries = 2`.  The client makes exactly 3 network attempts
(`max_retries + 1`) and `send_insights` raises `PokeAPIError` carrying the
last observed server error; in `sync_to_poke` this exception lands in the
generic `except` handler, which counts the record failed and appends the
error — but writes NO ledger entry at all (the `'failed'` ledger upsert at
lines 329-335 is on the unreachable `response.success == False` path), and
records no attempt count. -/
theorem scenario3_server_errors_exhaust_without_ledger_write
    (body : Nat → PyDict) (r : Record) :
    makeRequest body (fun _ => 500) 2 0 = (.error (.serverExhausted 500 2), 3) ∧
    processRecord body (fun _ => 500) 2 r =
      ⟨false, none, some (.pokeError (.serverExhausted 500 2))⟩ := by
  have hmr := makeRequest_all500 body 2 2 0 rfl
  refine ⟨hmr, ?_⟩
  unfold processRecord sendInsights
  rw [hmr]
  rfl

/-! ## Module loading of the integration script (poke_integration.py, line 25)

Claim C2 is about what happens before any delivery code can run: Python
executes the module body — including the statement
`from poke_api_client import PokeAPIClient, PokeAPIConfig` — before
`main()` is called (lines 492-493). -/

/-- The names bound at top level of module `poke_api_client`: its imports
(lines 31-43), the module logger (line 55), and its class statements (lines
58, 65, 70, 75, 80, 85, 90, 151).  No top-level `PokeAPIConfig` exists
anywhere in the module. -/
def pokeApiClientTopLevel : List String :=
  ["os", "time", "logging", "random", "Dict", "Any", "Optional", "List",
   "datetime", "timedelta", "Enum", "json", "requests", "HTTPAdapter", "Retry",
   "logger", "CircuitState", "PokeAPIError", "PokeAPIAuthenticationError",
   "PokeAPIRateLimitError", "PokeAPIValidationError", "CircuitBreakerOpenError",
   "CircuitBreaker", "PokeAPIClient"]

/-- The methods defined by `class PokeAPIClient` (lines 151-598).  There is
no `from_env` classmethod, although `main` calls `PokeAPIClient.from_env`
(line 444). -/
def pokeAPIClientMethods : List String :=
  ["__init__", "_create_session", "_check_rate_limit",
   "_calculate_backoff_with_jitter", "_make_request", "send_insights",
   "get_processing_status", "batch_send_insights", "health_check",
   "get_metrics", "close"]

/-- The name list of the `from ... import` statement at line 25 of
poke_integration.py. -/
def integrationImportList : List String := ["PokeAPIClient", "PokeAPIConfig"]

/-- Python `from m import a, b, ...`: the statement raises `ImportError`
naming the first requested name not bound in module `m`. -/
def fromImport (moduleNames requested : List String) : Except String Unit :=
  match requested.find? (fun n => !(moduleNames.contains n)) with
  | some missing => .error missing
  | none => .ok ()

/-- Outcome of running the integration script. -/
inductive ScriptResult (Effects : Type) where
  | importFailure (missing : String)
  | completed (effects : Effects)
deriving Repr

/-- Executing `poke_integration` runs the module body first — including
the line-25 import — and calls `main()` only if loading succeeded.  `mainBody`
stands for whatever `main` would do (deliveries, ledger writes, summary):
when loading fails, none of it happens. -/
def runIntegrationScript {Effects : Type} (mainBody : Unit → Effects) :
    ScriptResult Effects :=
  match fromImport pokeApiClientTopLevel integrationImportList with
  | .error missing => .importFailure missing
  | .ok _ => .completed (mainBody ())

/-- C2: every invocation of the integration script fails at the import
statement — `PokeAPIConfig` is not bound in `poke_api_client`, so the module
raises `ImportError` before `main()` runs, whatever `main` would have done:
no delivery, ledger write, or batch summary is ever produced.  Independently,
`from_env` (which `main` would call at line 444) is also not among
`PokeAPIClient`'s methods. -/
theorem integration_script_cannot_start {Effects : Type} (mainBody : Unit → Effects) :
    runIntegrationScript mainBody = .importFailure "PokeAPIConfig" ∧
    "PokeAPIConfig" ∉ pokeApiClientTopLevel ∧
    "from_env" ∉ pokeAPIClientMethods := by
  refine ⟨rfl, by decide, by decide⟩

end PokeSync
